import Mathlib

/-!
# k-port-forward: a verification development of `main.go`

The program supervises `kubectl port-forward`, scrapes the forwarded endpoints
from its standard output (`readURLs`), keeps them in a registry (`urls`),
health-checks the first one every three seconds and cancels the session when
that check fails.

## Conventions of the embedding

* A Go `string` is a sequence of bytes.  It is embedded as `List Char`, one
  list element per byte (the byte `b` is the character with code `b`).  The
  program only compares bytes with the ASCII constants of its two patterns.
* Library calls whose result depends on the outside world (`http.NewRequest`,
  `(*http.Client).Do`, `kubectl.Run`, `ctx.Err`) are parameters of the model.
* Library calls that are pure functions of their arguments (`strings.HasPrefix`,
  `strings.Index`, slicing, `bufio.Scanner` with its default `ScanLines` split
  and its default token limit) are embedded from their documented behaviour.
* The goroutines of `main` are embedded one at a time, as functions of what
  they receive.  How they interleave, how long they take and when the end of the
  process cuts them is not part of the embedding.
-/

namespace KPortForward

/-- A Go string: a sequence of bytes, one list element per byte. -/
abbrev GoString := List Char

/-- Go error values that the program can come across. -/
inductive GoError where
  /-- `bufio.ErrTooLong`: "bufio.Scanner: token too long". -/
  | errTooLong
  /-- `context.Canceled`. -/
  | canceled
  /-- Any other error, with its text (`err.Error()`). -/
  | other (text : GoString)
  deriving DecidableEq, Repr

/-- The text of an error, as `%s` prints it. -/
def GoError.text : GoError → GoString
  | .errTooLong => "bufio.Scanner: token too long".toList
  | .canceled => "context canceled".toList
  | .other t => t

/-! ## `strings` and slicing -/

/-- `strings.HasPrefix(s, pre)`: whether `s` begins with `pre`. -/
def stringsHasPrefix (s pre : GoString) : Bool :=
  pre.isPrefixOf s

/-- Index of the first position of `s` at which `sep` starts, if any. -/
def firstIndex (sep : GoString) : GoString → Option Nat
  | [] => if sep.isPrefixOf [] then some 0 else none
  | c :: t =>
    if sep.isPrefixOf (c :: t) then some 0
    else (firstIndex sep t).map (· + 1)

/-- `strings.Index(s, sep)`: the index of the first instance of `sep` in `s`,
or `-1` if `sep` is not present in `s`. -/
def stringsIndex (s sep : GoString) : Int :=
  match firstIndex sep s with
  | some i => (i : Int)
  | none => -1

/-- The slice expression `s[lo:hi]` on a string: the bytes from index `lo` up to
index `hi` (excluded).  It panics at run time ("slice bounds out of range")
unless `0 ≤ lo ≤ hi ≤ len(s)`; the panic is `none`. -/
def sliceString (s : GoString) (lo hi : Int) : Option GoString :=
  if 0 ≤ lo ∧ lo ≤ hi ∧ hi ≤ (s.length : Int) then
    some ((s.take hi.toNat).drop lo.toNat)
  else none

/-! ## `bufio.Scanner` with `ScanLines` -/

/-- `bufio.MaxScanTokenSize`: the size of the largest buffer a `Scanner` made by
`bufio.NewScanner` allocates. -/
def maxScanTokenSize : Nat := 64 * 1024

/-- `dropCR` of `bufio`: drops one terminal carriage return from the data. -/
def dropCR (data : GoString) : GoString :=
  if data.getLast? = some '\r' then data.dropLast else data

/-- What one call of `s.Scan()` yields. -/
inductive ScanResult where
  /-- `Scan` returned true: `s.Text()` is `text`, `rest` is the input not yet
  scanned. -/
  | token (text rest : GoString)
  /-- `Scan` returned false; `s.Err()` is `err` (nil at the end of the input). -/
  | stop (err : Option GoError)
  deriving DecidableEq, Repr

/-- One call of `s.Scan()` of a scanner built by `bufio.NewScanner` (split
function `ScanLines`, buffer limit `maxScanTokenSize`) whose reader still has
`input` to deliver before the end of file.

The next line is the input up to the first newline, or the whole input when no
newline is left; the token is that line without its newline and without one
trailing carriage return.  An empty rest yields no token.  A line of
`maxScanTokenSize` bytes or more fills the buffer before a newline or the end of
file is seen, and `Scan` stops with `ErrTooLong`. -/
def scannerScan (input : GoString) : ScanResult :=
  if input.isEmpty then .stop none
  else
    let line := input.takeWhile (· != '\n')
    if maxScanTokenSize ≤ line.length then .stop (some .errTooLong)
    else .token (dropCR line) (input.drop (line.length + 1))

/-! ## `readURLs` -/

/-- The prefix `"Forwarding from "` of a port-forwarding mention. -/
def forwardingFrom : GoString := "Forwarding from ".toList

/-- The separator `" -> "` of a port-forwarding mention. -/
def arrow : GoString := " -> ".toList

/-- The scheme `"http://"` put in front of each host and port. -/
def httpScheme : GoString := "http://".toList

/-- What the body of the scanning loop of `readURLs` does with one line. -/
inductive LineAction where
  /-- One of the two `continue` statements: nothing is sent. -/
  | skip
  /-- The statement `u <- "http://" + l[16:p]` sends `url`. -/
  | send (url : GoString)
  /-- The slice expression `l[16:p]` panics. -/
  | panic
  deriving DecidableEq, Repr

/-- The body of the loop of `readURLs` on the line `l := s.Text()`. -/
def readURLsLine (l : GoString) : LineAction :=
  if !stringsHasPrefix l forwardingFrom then .skip
  else
    let p := stringsIndex l arrow
    if p = -1 then .skip
    else
      match sliceString l 16 p with
      | some hostport => .send (httpScheme ++ hostport)
      | none => .panic

/-- How a run of `readURLs` ends. -/
inductive Ending where
  /-- The function returned `s.Err()`. -/
  | returned (err : Option GoError)
  /-- The goroutine panicked (which ends the whole program). -/
  | panicked
  /-- The model ran out of fuel (never the case for `readURLs`, see
  `readURLs_ending_ne_outOfFuel`). -/
  | outOfFuel
  deriving DecidableEq, Repr

/-- A run of `readURLs`: the values sent on the channel `u`, in order, and how
the run ended. -/
structure ReadRun where
  sent : List GoString
  ending : Ending
  deriving DecidableEq, Repr

/-- The run that first sends `url` and then goes on as `r`. -/
def ReadRun.afterSend (url : GoString) (r : ReadRun) : ReadRun :=
  { r with sent := url :: r.sent }

/-- The loop `for s.Scan() { ... }; return s.Err()` of `readURLs`, with `fuel`
bounding the number of iterations.  Every send on the unbuffered channel `u`
completes, because the receiving loop of `main` takes every value. -/
def readURLsLoop : Nat → GoString → ReadRun
  | 0, _ => { sent := [], ending := .outOfFuel }
  | fuel + 1, input =>
    match scannerScan input with
    | .stop err => { sent := [], ending := .returned err }
    | .token l rest =>
      match readURLsLine l with
      | .skip => readURLsLoop fuel rest
      | .send url => (readURLsLoop fuel rest).afterSend url
      | .panic => { sent := [], ending := .panicked }

/-- `readURLs(r, u)` where the reader `r` delivers the bytes `input` and then
the end of file.  Every token takes at least one byte of the input, so
`input.length + 1` iterations are enough. -/
def readURLs (input : GoString) : ReadRun :=
  readURLsLoop (input.length + 1) input

/-! ## The endpoint registry -/

/-- The statement `urls = append(urls, u)`, run under the write lock `ulock`. -/
def appendURL (urls : List GoString) (u : GoString) : List GoString :=
  urls ++ [u]

/-- The registering loop `for u := range newURLs { ... }` of `main`: the registry
`urls` after the values `received` came out of the channel, in that order. -/
def registerLoop (urls : List GoString) : List GoString → List GoString
  | [] => urls
  | u :: more => registerLoop (appendURL urls u) more

/-! ## The health monitor -/

/-- `http.MethodGet`. -/
def methodGet : GoString := "GET".toList

/-- A request built by `http.NewRequest(method, url, nil)`. -/
structure Request where
  method : GoString
  url : GoString
  deriving DecidableEq, Repr

/-- A response received by `c.Do`; the monitor never looks into it. -/
structure Response where
  statusCode : Nat
  deriving DecidableEq, Repr

/-- The outside world as the health check meets it.

`newRequest method url` is the error of `http.NewRequest(method, url, nil)`
(`none` when the request is built: it is then `Request.mk method url`).
`clientDo r` is the outcome of `c.Do(r)` for the client `c` of `main`, whose
`CheckRedirect` returns `http.ErrUseLastResponse`: an error, or a response (a
redirect is returned as a response, it is not followed). -/
structure HttpWorld where
  newRequest : GoString → GoString → Option GoError
  clientDo : Request → Except GoError Response

/-- What one call of `httpHealthCheck` does: the requests handed to `c.Do`, and
the error returned. -/
structure HealthCheck where
  requests : List Request
  err : Option GoError
  deriving DecidableEq, Repr

/-- `httpHealthCheck(c, u)`: returns the error of `http.NewRequest`, if any,
without calling `c.Do`; otherwise the error of `c.Do(r)`. -/
def httpHealthCheck (w : HttpWorld) (u : GoString) : HealthCheck :=
  match w.newRequest methodGet u with
  | some err => { requests := [], err := some err }
  | none =>
    match w.clientDo (Request.mk methodGet u) with
    | .error err => { requests := [Request.mk methodGet u], err := some err }
    | .ok _ => { requests := [Request.mk methodGet u], err := none }

/-- The state that the health monitor goroutine touches, with a record of what
it did so far. -/
structure Monitor where
  /-- Whether `ctx` is cancelled (`ctx.Err() != nil`). -/
  cancelled : Bool
  /-- How many times the monitor called `cancel()`. -/
  cancelCalls : Nat
  /-- The lines the monitor wrote to `os.Stderr`. -/
  stderr : List GoString
  /-- The arguments of the calls of `httpHealthCheck`, in order. -/
  probes : List GoString
  /-- The requests handed to `c.Do`, in order. -/
  requests : List Request
  deriving DecidableEq, Repr

/-- The monitor before its first tick. -/
def Monitor.start : Monitor :=
  { cancelled := false, cancelCalls := 0, stderr := [], probes := [], requests := [] }

/-- The diagnostic `fmt.Fprintf(os.Stderr, "health check failed: %s\n", err)`. -/
def healthCheckFailed (err : GoError) : GoString :=
  "health check failed: ".toList ++ err.text ++ "\n".toList

/-- One iteration of the monitor loop after its `time.Sleep`: under the read
lock, `for _, u := range urls { ...; break }` with the registry holding `urls`.
The body runs for the first element only; an empty registry runs no body. -/
def monitorTick (w : HttpWorld) (urls : List GoString) (st : Monitor) : Monitor :=
  match urls with
  | [] => st
  | u :: _ =>
    let hc := httpHealthCheck w u
    let probed := { st with probes := st.probes ++ [u], requests := st.requests ++ hc.requests }
    match hc.err with
    | some err =>
      { probed with
        stderr := probed.stderr ++ [healthCheckFailed err],
        cancelled := true,
        cancelCalls := probed.cancelCalls + 1 }
    | none => probed

/-! ## The end of `main` -/

/-- How the process ends: its exit status and the lines `main` itself wrote to
`os.Stderr`. -/
structure Exit where
  status : Nat
  stderr : List GoString
  deriving DecidableEq, Repr

/-- `ctx.Err()` of the context of `main`: nil until `cancel` is called, then
`context.Canceled`. -/
def ctxErr (cancelled : Bool) : Option GoError :=
  if cancelled then some .canceled else none

/-- The diagnostic `fmt.Fprintf(os.Stderr, "attaching to kubectl stderr: %s\n", err)`. -/
def attachingFailed (err : GoError) : GoString :=
  "attaching to kubectl stderr: ".toList ++ err.text ++ "\n".toList

/-- The diagnostic `fmt.Fprintf(os.Stderr, "kubectl: %s\n", err)`. -/
def kubectlFailed (err : GoError) : GoString :=
  "kubectl: ".toList ++ err.text ++ "\n".toList

/-- The main goroutine of `main`: `pipeErr` is the error of
`kubectl.StdoutPipe()`, `runErr` the error of `kubectl.Run()`, and `cancelled`
tells whether `cancel` was called by the time `ctx.Err()` is read. -/
def main (pipeErr runErr : Option GoError) (cancelled : Bool) : Exit :=
  match pipeErr with
  | some err => { status := 1, stderr := [attachingFailed err] }
  | none =>
    match runErr with
    | some err =>
      if ctxErr cancelled = none then { status := 1, stderr := [kubectlFailed err] }
      else { status := 1, stderr := [] }
    | none => { status := 0, stderr := [] }

/-! ## Worlds and inputs of the examples -/

/-- A world in which `http.NewRequest` rejects a URL that holds an ASCII control
byte, as `net/url` does ("invalid control character in URL"), and in which every
request that is sent is answered with status 200. -/
def ctlWorld : HttpWorld where
  newRequest := fun _ u =>
    if u.any (fun c => decide (c.toNat < 32) || decide (c.toNat = 127)) then
      some (.other "net/url: invalid control character in URL".toList)
    else none
  clientDo := fun _ => .ok { statusCode := 200 }

/-- A world in which every request is built and every `c.Do` fails to connect. -/
def refusedWorld : HttpWorld where
  newRequest := fun _ _ => none
  clientDo := fun _ => .error (.other "connection refused".toList)

/-- A world in which every request is built and every `c.Do` times out. -/
def timeoutWorld : HttpWorld where
  newRequest := fun _ _ => none
  clientDo := fun _ => .error (.other "context deadline exceeded".toList)

/-- A world in which every request is built and answered with `status`. -/
def answeringWorld (status : Nat) : HttpWorld where
  newRequest := fun _ _ => none
  clientDo := fun _ => .ok { statusCode := status }

/-! ## Lemmas on the scanner and on `readURLs` -/

theorem scannerScan_rest_length {input l rest : GoString}
    (h : scannerScan input = .token l rest) : rest.length < input.length := by
  unfold scannerScan at h
  split at h
  · cases h
  · rename_i hne
    simp only at h
    split at h
    · cases h
    · injection h with _ hrest
      subst hrest
      have hpos : 0 < input.length := by
        cases input with
        | nil => simp at hne
        | cons c t => simp
      simp only [List.length_drop]
      omega

theorem readURLsLoop_fuel (f₁ : Nat) : ∀ (f₂ : Nat) (input : GoString),
    input.length < f₁ → input.length < f₂ →
    readURLsLoop f₁ input = readURLsLoop f₂ input := by
  induction f₁ with
  | zero => intro f₂ input h; omega
  | succ n ih =>
    intro f₂ input h₁ h₂
    cases f₂ with
    | zero => omega
    | succ m =>
      unfold readURLsLoop
      cases hs : scannerScan input with
      | stop err => rfl
      | token l rest =>
        have hlt := scannerScan_rest_length hs
        have e := ih m rest (by omega) (by omega)
        simp only [e]

/-- One iteration of `readURLs`, unfolded. -/
theorem readURLs_step (input : GoString) :
    readURLs input =
      match scannerScan input with
      | .stop err => { sent := [], ending := .returned err }
      | .token l rest =>
        match readURLsLine l with
        | .skip => readURLs rest
        | .send url => (readURLs rest).afterSend url
        | .panic => { sent := [], ending := .panicked } := by
  unfold readURLs
  rw [readURLsLoop]
  cases hs : scannerScan input with
  | stop err => rfl
  | token l rest =>
    have hlt := scannerScan_rest_length hs
    have e := readURLsLoop_fuel input.length (rest.length + 1) rest hlt (by omega)
    simp only [e]

theorem readURLsLoop_ending (f : Nat) : ∀ input : GoString, input.length < f →
    (readURLsLoop f input).ending ≠ .outOfFuel := by
  induction f with
  | zero => intro input h; omega
  | succ n ih =>
    intro input h
    unfold readURLsLoop
    cases hs : scannerScan input with
    | stop err => simp
    | token l rest =>
      have hlt := scannerScan_rest_length hs
      have e := ih rest (by omega)
      simp only
      split
      · exact e
      · simpa [ReadRun.afterSend] using e
      · simp

/-- The fuel of `readURLs` is enough: the run ends by a return or by a panic. -/
theorem readURLs_ending_ne_outOfFuel (input : GoString) :
    (readURLs input).ending ≠ .outOfFuel :=
  readURLsLoop_ending _ input (Nat.lt_succ_self _)

theorem takeWhile_line (L rest : GoString) (h : '\n' ∉ L) :
    (L ++ '\n' :: rest).takeWhile (· != '\n') = L := by
  induction L with
  | nil => simp
  | cons c t ih =>
    simp only [List.mem_cons, not_or] at h
    have hc : (c != '\n') = true := by
      simp only [bne_iff_ne, ne_eq]
      exact fun e => h.1 e.symm
    simp [List.takeWhile, hc, ih h.2]

theorem takeWhile_last (L : GoString) (h : '\n' ∉ L) :
    L.takeWhile (· != '\n') = L := by
  induction L with
  | nil => simp
  | cons c t ih =>
    simp only [List.mem_cons, not_or] at h
    have hc : (c != '\n') = true := by
      simp only [bne_iff_ne, ne_eq]
      exact fun e => h.1 e.symm
    simp [List.takeWhile, hc, ih h.2]

/-- The scanner on a line that is followed by a newline. -/
theorem scannerScan_line (L rest : GoString) (hnl : '\n' ∉ L)
    (hlen : L.length < maxScanTokenSize) :
    scannerScan (L ++ '\n' :: rest) = .token (dropCR L) rest := by
  unfold scannerScan
  have hne : (L ++ '\n' :: rest).isEmpty = false := by
    cases L <;> simp
  simp only [hne, takeWhile_line L rest hnl]
  have h2 : ¬ maxScanTokenSize ≤ L.length := by omega
  simp [h2]

/-- The scanner on a last line that no newline follows. -/
theorem scannerScan_last (L : GoString) (hne : L ≠ []) (hnl : '\n' ∉ L)
    (hlen : L.length < maxScanTokenSize) :
    scannerScan L = .token (dropCR L) [] := by
  unfold scannerScan
  have hne2 : L.isEmpty = false := by
    cases L with
    | nil => exact absurd rfl hne
    | cons c t => simp
  simp only [hne2, takeWhile_last L hnl]
  have h2 : ¬ maxScanTokenSize ≤ L.length := by omega
  simp [h2]

theorem dropCR_append (X B : GoString) (hB : B ≠ []) :
    dropCR (X ++ B) = X ++ dropCR B := by
  unfold dropCR
  rw [List.getLast?_append_of_ne_nil X hB]
  split
  · rw [List.dropLast_append_of_ne_nil X hB]
  · rfl

theorem dropCR_append_arrow (X : GoString) : dropCR (X ++ arrow) = X ++ arrow := by
  rw [dropCR_append X arrow (by decide)]
  congr 1

/-! ## Lemmas on `strings.Index` -/

theorem firstIndex_of_isPrefixOf (sep s : GoString) (h : sep.isPrefixOf s = true) :
    firstIndex sep s = some 0 := by
  cases s with
  | nil => simp [firstIndex, h]
  | cons c t => simp [firstIndex, h]

theorem firstIndex_none_of_not_infix (sep : GoString) : ∀ s : GoString,
    ¬ sep <:+: s → firstIndex sep s = none := by
  intro s
  induction s with
  | nil =>
    intro h
    have : sep.isPrefixOf [] = false := by
      cases hp : sep.isPrefixOf [] with
      | false => rfl
      | true =>
        exact absurd (( List.isPrefixOf_iff_prefix.mp hp).isInfix) h
    simp [firstIndex, this]
  | cons c t ih =>
    intro h
    have h1 : sep.isPrefixOf (c :: t) = false := by
      cases hp : sep.isPrefixOf (c :: t) with
      | false => rfl
      | true =>
        exact absurd (( List.isPrefixOf_iff_prefix.mp hp).isInfix) h
    have h2 : ¬ sep <:+: t := fun hi => h (hi.trans (List.suffix_cons c t).isInfix)
    simp [firstIndex, h1, ih h2]

/-- When `sep` does not occur in `x ++ sep.dropLast`, the first occurrence of
`sep` in `x ++ sep ++ B` is the one right after `x`. -/
theorem firstIndex_append (sep B : GoString) : ∀ x : GoString,
    ¬ sep <:+: x ++ sep.dropLast → firstIndex sep (x ++ (sep ++ B)) = some x.length := by
  intro x
  induction x with
  | nil =>
    intro _
    exact firstIndex_of_isPrefixOf sep _ ( List.isPrefixOf_iff_prefix.mpr (List.prefix_append sep B))
  | cons c t ih =>
    intro h
    have h1 : sep.isPrefixOf (c :: t ++ (sep ++ B)) = false := by
      cases hp : sep.isPrefixOf (c :: t ++ (sep ++ B)) with
      | false => rfl
      | true =>
        exfalso
        have hp1 : sep <+: (c :: t) ++ (sep ++ B) := List.isPrefixOf_iff_prefix.mp hp
        have hp2 : (c :: t) ++ sep.dropLast <+: (c :: t) ++ (sep ++ B) := by
          apply (List.prefix_append_right_inj (c :: t)).mpr
          exact (List.dropLast_prefix sep).trans (List.prefix_append sep B)
        have hlen : sep.length ≤ ((c :: t) ++ sep.dropLast).length := by
          simp only [List.length_append, List.length_cons, List.length_dropLast]
          omega
        exact h (List.prefix_of_prefix_length_le hp1 hp2 hlen).isInfix
    have h2 : ¬ sep <:+: t ++ sep.dropLast := fun hi =>
      h (hi.trans (List.suffix_cons c (t ++ sep.dropLast)).isInfix)
    simp only [List.cons_append] at h1 ⊢
    simp [firstIndex, h1, ih h2]

/-! ## The line extractor -/

theorem readURLsLine_forwarding (A B : GoString)
    (hfirst : ¬ arrow <:+: forwardingFrom ++ A ++ " ->".toList) :
    readURLsLine (forwardingFrom ++ A ++ arrow ++ B) = .send (httpScheme ++ A) := by
  have hdl : arrow.dropLast = " ->".toList := by decide
  have hidx : firstIndex arrow (forwardingFrom ++ A ++ arrow ++ B)
      = some (forwardingFrom ++ A).length := by
    have h := firstIndex_append arrow B (forwardingFrom ++ A) (by rw [hdl]; exact hfirst)
    simpa [List.append_assoc] using h
  have hp : stringsHasPrefix (forwardingFrom ++ A ++ arrow ++ B) forwardingFrom = true := by
    unfold stringsHasPrefix
    rw [ List.isPrefixOf_iff_prefix, List.append_assoc, List.append_assoc]
    exact List.prefix_append _ _
  have hF : forwardingFrom.length = 16 := by decide
  have hslice : sliceString (forwardingFrom ++ A ++ arrow ++ B) 16
      (((forwardingFrom ++ A).length : Nat) : Int) = some A := by
    unfold sliceString
    have hc : (0 : Int) ≤ 16 ∧ (16 : Int) ≤ ((forwardingFrom ++ A).length : Nat) ∧
        (((forwardingFrom ++ A).length : Nat) : Int)
          ≤ ((forwardingFrom ++ A ++ arrow ++ B).length : Nat) := by
      simp only [List.length_append, hF]
      omega
    rw [if_pos hc]
    congr 1
    have e1 : (forwardingFrom ++ A ++ arrow ++ B)
        = (forwardingFrom ++ A) ++ (arrow ++ B) := by simp [List.append_assoc]
    rw [Int.toNat_ofNat, e1, List.take_left]
    have e2 : (16 : Int).toNat = forwardingFrom.length := by rw [hF]; rfl
    rw [e2, List.drop_left]
  unfold readURLsLine
  simp only [hp, stringsIndex, hidx, hslice]
  have hne : ¬ ((((forwardingFrom ++ A).length : Nat) : Int) = -1) := by omega
  rw [if_neg hne]
  simp

/-- C1 (amended): for every `A` such that `" -> "` does not occur in
`"Forwarding from " ++ A ++ " ->"` (the separator that follows `A` is the first
one of the line), and every `B`, neither holding a newline, with the line
shorter than the scanner's token limit of 65536 bytes: when `readURLs` scans the
line `"Forwarding from " ++ A ++ " -> " ++ B`, followed by a newline and any
further input or standing last in the input, it sends exactly one endpoint for
that line, `"http://" ++ A`, and goes on with the rest of the input. -/
theorem readURLs_forwarding_line (A B rest : GoString)
    (hA : '\n' ∉ A) (hB : '\n' ∉ B)
    (hfirst : ¬ arrow <:+: forwardingFrom ++ A ++ " ->".toList)
    (hlen : (forwardingFrom ++ A ++ arrow ++ B).length < maxScanTokenSize) :
    readURLs (forwardingFrom ++ A ++ arrow ++ B ++ '\n' :: rest)
        = (readURLs rest).afterSend (httpScheme ++ A) ∧
    readURLs (forwardingFrom ++ A ++ arrow ++ B)
        = { sent := [httpScheme ++ A], ending := .returned none } := by
  have hnl : '\n' ∉ forwardingFrom ++ A ++ arrow ++ B := by
    have h1 : '\n' ∉ forwardingFrom := by decide
    have h2 : '\n' ∉ arrow := by decide
    simp [h1, h2, hA, hB]
  have hcr : ∃ B', dropCR (forwardingFrom ++ A ++ arrow ++ B)
      = forwardingFrom ++ A ++ arrow ++ B' := by
    by_cases hBe : B = []
    · subst hBe
      refine ⟨[], ?_⟩
      rw [List.append_nil, dropCR_append_arrow]
    · exact ⟨dropCR B, dropCR_append _ B hBe⟩
  obtain ⟨B', hB'⟩ := hcr
  have hline := readURLsLine_forwarding A B' hfirst
  constructor
  · rw [readURLs_step, scannerScan_line _ rest hnl hlen]
    simp only [hB', hline]
  · have hne : forwardingFrom ++ A ++ arrow ++ B ≠ [] := by
      simp [forwardingFrom]
    rw [readURLs_step, scannerScan_last _ hne hnl hlen]
    simp only [hB', hline]
    rw [readURLs_step]
    rfl

/-- Witness of `readURLs_forwarding_line`: the line of kubectl for a forward of
port 8080. -/
theorem readURLs_forwarding_line_witness :
    readURLs "Forwarding from 127.0.0.1:8080 -> 80\n".toList
      = { sent := ["http://127.0.0.1:8080".toList], ending := .returned none } :=
  (readURLs_forwarding_line "127.0.0.1:8080".toList "80".toList []
    (by decide) (by decide) (by decide) (by decide)).1

/-- C1 as stated fails: `A = "x ->"` does not contain `" -> "` and neither `A`
nor `B = "y"` holds a newline, yet on the line `"Forwarding from x -> -> y"` the
first `" -> "` of the line ends inside `A`, and `readURLs` sends `"http://x"`,
which is not `"http://" ++ A`. -/
theorem readURLs_forwarding_line_counterexample :
    ¬ arrow <:+: "x ->".toList ∧ '\n' ∉ "x ->".toList ∧ '\n' ∉ "y".toList ∧
    readURLs (forwardingFrom ++ "x ->".toList ++ arrow ++ "y".toList ++ ['\n'])
      = { sent := ["http://x".toList], ending := .returned none } ∧
    "http://x".toList ≠ httpScheme ++ "x ->".toList := by
  decide

/-- C1, the part left out of the amended claim: `A = "-> x"` does not contain
`" -> "` either, but on the line `"Forwarding from -> x -> y"` the first `" -> "`
starts at index 15, inside the prefix, and `l[16:15]` panics: nothing is sent. -/
theorem readURLs_forwarding_line_panic :
    ¬ arrow <:+: "-> x".toList ∧
    readURLs (forwardingFrom ++ "-> x".toList ++ arrow ++ "y".toList ++ ['\n'])
      = { sent := [], ending := .panicked } := by
  decide

/-- C2, evaluated at the failing input: the line `"Forwarding from -> x"` begins
with the prefix and has no `" -> "` in the text after its 16 bytes, but
`strings.Index` searches the whole line and finds `" -> "` at index 15, so
`l[16:15]` panics: `readURLs` does not go on to the next line, whose endpoint is
never sent. -/
theorem readURLs_panics_on_overlap :
    stringsHasPrefix "Forwarding from -> x".toList forwardingFrom = true ∧
    ¬ arrow <:+: ("Forwarding from -> x".toList).drop 16 ∧
    '\n' ∉ "Forwarding from -> x".toList ∧
    stringsIndex "Forwarding from -> x".toList arrow = 15 ∧
    sliceString "Forwarding from -> x".toList 16 15 = none ∧
    readURLs "Forwarding from -> x\nForwarding from a -> b\n".toList
      = { sent := [], ending := .panicked } ∧
    readURLs "Forwarding from a -> b\n".toList
      = { sent := ["http://a".toList], ending := .returned none } := by
  decide

theorem dropCR_prefix_of (L : GoString) : dropCR L <+: L := by
  unfold dropCR
  split
  · exact List.dropLast_prefix L
  · exact List.prefix_refl L

/-- The part of C2 that holds: a line shorter than the token limit that does
not begin with `"Forwarding from "`, or in which `" -> "` occurs nowhere, is
skipped: nothing is sent for it and the scan goes on with the next line. -/
theorem readURLs_skips_line (L rest : GoString) (hnl : '\n' ∉ L)
    (hlen : L.length < maxScanTokenSize)
    (h : stringsHasPrefix L forwardingFrom = false ∨ ¬ arrow <:+: L) :
    readURLs (L ++ '\n' :: rest) = readURLs rest := by
  have hline : readURLsLine (dropCR L) = .skip := by
    unfold readURLsLine
    cases hp : stringsHasPrefix (dropCR L) forwardingFrom with
    | false => simp
    | true =>
      have hp2 : stringsHasPrefix L forwardingFrom = true := by
        unfold stringsHasPrefix at hp ⊢
        rw [ List.isPrefixOf_iff_prefix] at hp ⊢
        exact hp.trans (dropCR_prefix_of L)
      rcases h with h | h
      · rw [hp2] at h
        cases h
      · have hni : ¬ arrow <:+: dropCR L := fun hi => h (hi.trans (dropCR_prefix_of L).isInfix)
        simp [stringsIndex, firstIndex_none_of_not_infix arrow _ hni]
  rw [readURLs_step, scannerScan_line L rest hnl hlen]
  simp only [hline]

/-- A line of 65536 bytes or more ends the scan with `bufio.ErrTooLong`: nothing
is sent for it, `readURLs` returns, and the lines after it are never read. -/
theorem readURLs_line_too_long (L rest : GoString) (hnl : '\n' ∉ L)
    (hlen : maxScanTokenSize ≤ L.length) :
    readURLs (L ++ '\n' :: rest) = { sent := [], ending := .returned (some .errTooLong) } := by
  have hs : scannerScan (L ++ '\n' :: rest) = .stop (some .errTooLong) := by
    unfold scannerScan
    have hne : (L ++ '\n' :: rest).isEmpty = false := by
      cases L <;> simp
    simp only [hne, takeWhile_line L rest hnl]
    simp [hlen]
  rw [readURLs_step, hs]

/-! ## The end of `main` -/

/-- C4: once the subprocess was run, the exit status is 0 when `kubectl.Run()`
returns no error and 1 when it returns an error, whether or not cancellation
was triggered. -/
theorem main_exit_status (cancelled : Bool) :
    (main none none cancelled).status = 0 ∧
    ∀ err : GoError, (main none (some err) cancelled).status = 1 := by
  constructor
  · rfl
  · intro err
    cases cancelled <;> rfl

/-- C5: when `kubectl.Run()` returns the error `err`, `main` writes the line
`"kubectl: " ++ err.Error() ++ "\n"` to standard error if and only if
cancellation has not been triggered; when it has been triggered, `main` writes
nothing. -/
theorem main_run_error_diagnostic (err : GoError) (cancelled : Bool) :
    (kubectlFailed err ∈ (main none (some err) cancelled).stderr ↔ cancelled = false) ∧
    (main none (some err) false).stderr = ["kubectl: ".toList ++ err.text ++ "\n".toList] ∧
    (main none (some err) true).stderr = [] := by
  refine ⟨?_, rfl, rfl⟩
  cases cancelled <;> simp [main, ctxErr]

/-- C8 as stated fails: with cancellation triggered and `kubectl.Run()` returning
no error, `main` falls off its end and the exit status is 0. -/
theorem main_cancelled_counterexample :
    ctxErr true ≠ none ∧ (main none none true).status = 0 := by
  decide

/-- C8 (amended): whenever cancellation has been triggered by the time the wait
on the subprocess returns, `main` writes nothing; the exit status is 1 for every
error that `kubectl.Run()` returns, and 0 when it returns no error. -/
theorem main_cancelled (err : GoError) :
    main none (some err) true = { status := 1, stderr := [] } ∧
    main none none true = { status := 0, stderr := [] } :=
  ⟨rfl, rfl⟩

/-! ## The health monitor -/

theorem httpHealthCheck_response (w : HttpWorld) (u : GoString) (resp : Response)
    (hreq : w.newRequest methodGet u = none)
    (hdo : w.clientDo (Request.mk methodGet u) = .ok resp) :
    httpHealthCheck w u = { requests := [Request.mk methodGet u], err := none } := by
  simp [httpHealthCheck, hreq, hdo]

theorem httpHealthCheck_err_iff (w : HttpWorld) (u : GoString) (err : GoError) :
    (httpHealthCheck w u).err = some err ↔
      (w.newRequest methodGet u = some err ∨
        (w.newRequest methodGet u = none ∧
          w.clientDo (Request.mk methodGet u) = .error err)) := by
  unfold httpHealthCheck
  cases h1 : w.newRequest methodGet u with
  | some e => simp
  | none => cases h2 : w.clientDo (Request.mk methodGet u) <;> simp

theorem monitorTick_healthCheck (w : HttpWorld) (urls : List GoString) (st : Monitor) :
    ((monitorTick w urls st).cancelCalls = st.cancelCalls + 1 ↔
      ∃ u more err, urls = u :: more ∧ (httpHealthCheck w u).err = some err) ∧
    ((monitorTick w urls st).cancelCalls = st.cancelCalls + 1 ∨
      ((monitorTick w urls st).cancelCalls = st.cancelCalls ∧
       (monitorTick w urls st).cancelled = st.cancelled ∧
       (monitorTick w urls st).stderr = st.stderr)) ∧
    (∀ u more err, urls = u :: more → (httpHealthCheck w u).err = some err →
      (monitorTick w urls st).cancelled = true ∧
      (monitorTick w urls st).stderr = st.stderr ++ [healthCheckFailed err]) ∧
    (urls = [] → monitorTick w urls st = st) ∧
    (∀ u more resp, urls = u :: more → w.newRequest methodGet u = none →
      w.clientDo (Request.mk methodGet u) = .ok resp →
      (monitorTick w urls st).cancelCalls = st.cancelCalls ∧
      (monitorTick w urls st).cancelled = st.cancelled ∧
      (monitorTick w urls st).stderr = st.stderr) := by
  cases urls with
  | nil => simp [monitorTick]
  | cons u more =>
    refine ⟨?_, ?_, ?_, ?_, ?_⟩
    · cases h : (httpHealthCheck w u).err <;> simp [monitorTick, h]
    · cases h : (httpHealthCheck w u).err <;> simp [monitorTick, h]
    · intro u2 more2 err hu herr
      injection hu with h1 h2
      subst h1
      simp [monitorTick, herr]
    · intro h
      cases h
    · intro u2 more2 resp hu hreq hdo
      injection hu with h1 h2
      subst h1
      simp [monitorTick, httpHealthCheck_response w u resp hreq hdo]

/-- C3 as stated fails: in a world where every HTTP GET is answered with status
200, the tick on the registry `["http://a\tb"]` calls `cancel` and writes a
diagnostic, although no GET returned an error (none was issued):
`http.NewRequest` rejected the URL and `httpHealthCheck` returned that error. -/
theorem monitorTick_cancels_counterexample :
    (∀ r : Request, ctlWorld.clientDo r = .ok (Response.mk 200)) ∧
    (monitorTick ctlWorld ["http://a\tb".toList] Monitor.start).requests = [] ∧
    (monitorTick ctlWorld ["http://a\tb".toList] Monitor.start).cancelCalls = 1 ∧
    (monitorTick ctlWorld ["http://a\tb".toList] Monitor.start).cancelled = true ∧
    (monitorTick ctlWorld ["http://a\tb".toList] Monitor.start).stderr.length = 1 :=
  ⟨fun _ => rfl, by decide, by decide, by decide, by decide⟩

/-- C3 (amended): one tick of the monitor calls `cancel` if and only if the
registry is not empty and the health check of its first endpoint `u` returns an
error, that is: `http.NewRequest` fails to build the GET request for `u`, or the
request is built and the HTTP GET `c.Do` returns an error.  In that case the
tick writes the diagnostic with that error and `ctx` is cancelled; in every
other case it leaves `ctx` and standard error as they were.  When the registry
is empty the tick changes nothing.  When the GET on the first endpoint yields a
response, whatever its status code, the tick neither calls `cancel` nor writes
a diagnostic. -/
theorem monitorTick_cancels_iff (w : HttpWorld) (urls : List GoString) (st : Monitor) :
    ((monitorTick w urls st).cancelCalls = st.cancelCalls + 1 ↔
      ∃ u more err, urls = u :: more ∧
        (w.newRequest methodGet u = some err ∨
          (w.newRequest methodGet u = none ∧
            w.clientDo (Request.mk methodGet u) = .error err))) ∧
    ((monitorTick w urls st).cancelCalls = st.cancelCalls + 1 ∨
      ((monitorTick w urls st).cancelCalls = st.cancelCalls ∧
       (monitorTick w urls st).cancelled = st.cancelled ∧
       (monitorTick w urls st).stderr = st.stderr)) ∧
    (∀ u more err, urls = u :: more →
      (w.newRequest methodGet u = some err ∨
        (w.newRequest methodGet u = none ∧
          w.clientDo (Request.mk methodGet u) = .error err)) →
      (monitorTick w urls st).cancelCalls = st.cancelCalls + 1 ∧
      (monitorTick w urls st).cancelled = true ∧
      (monitorTick w urls st).stderr = st.stderr ++ [healthCheckFailed err]) ∧
    (urls = [] → monitorTick w urls st = st) ∧
    (∀ u more resp, urls = u :: more → w.newRequest methodGet u = none →
      w.clientDo (Request.mk methodGet u) = .ok resp →
      (monitorTick w urls st).cancelCalls = st.cancelCalls ∧
      (monitorTick w urls st).cancelled = st.cancelled ∧
      (monitorTick w urls st).stderr = st.stderr) := by
  obtain ⟨h1, h2, h3, h4, h5⟩ := monitorTick_healthCheck w urls st
  refine ⟨?_, h2, ?_, h4, h5⟩
  · rw [h1]
    constructor
    · rintro ⟨u, more, err, hu, he⟩
      exact ⟨u, more, err, hu, (httpHealthCheck_err_iff w u err).mp he⟩
    · rintro ⟨u, more, err, hu, he⟩
      exact ⟨u, more, err, hu, (httpHealthCheck_err_iff w u err).mpr he⟩
  · intro u more err hu he
    have hc := (httpHealthCheck_err_iff w u err).mpr he
    exact ⟨h1.mpr ⟨u, more, err, hu, hc⟩, h3 u more err hu hc⟩

/-- Witness of `monitorTick_cancels_iff`: a refused connection and a timeout both
make the tick call `cancel` once and write the diagnostic; a redirect answer
(status 302) makes it do neither. -/
theorem monitorTick_cancels_iff_witness :
    (monitorTick refusedWorld ["http://a".toList] Monitor.start).cancelCalls = 1 ∧
    (monitorTick refusedWorld ["http://a".toList] Monitor.start).stderr
      = ["health check failed: connection refused\n".toList] ∧
    (monitorTick timeoutWorld ["http://a".toList] Monitor.start).cancelCalls = 1 ∧
    (monitorTick (answeringWorld 302) ["http://a".toList] Monitor.start).cancelCalls = 0 ∧
    (monitorTick (answeringWorld 302) ["http://a".toList] Monitor.start).stderr = [] :=
  have hr := monitorTick_cancels_iff refusedWorld ["http://a".toList] Monitor.start
  have ht := monitorTick_cancels_iff timeoutWorld ["http://a".toList] Monitor.start
  have ha := monitorTick_cancels_iff (answeringWorld 302) ["http://a".toList] Monitor.start
  have h3 := ha.2.2.2.2 "http://a".toList [] (Response.mk 302) rfl rfl rfl
  ⟨hr.1.mpr ⟨"http://a".toList, [], .other "connection refused".toList, rfl,
      Or.inr ⟨rfl, rfl⟩⟩,
   (hr.2.2.1 "http://a".toList [] (.other "connection refused".toList) rfl
      (Or.inr ⟨rfl, rfl⟩)).2.2,
   ht.1.mpr ⟨"http://a".toList, [], .other "context deadline exceeded".toList, rfl,
      Or.inr ⟨rfl, rfl⟩⟩,
   h3.1, h3.2.2⟩

/-- C6 as stated fails: the line `"Forwarding from a\tb -> 80"` registers the
endpoint `"http://a\tb"`; `http.NewRequest` rejects this URL, so the tick on the
registry holding it hands no request to `c.Do` (and cancels the session). -/
theorem monitorTick_requests_counterexample :
    (readURLs "Forwarding from a\tb -> 80\n".toList).sent = ["http://a\tb".toList] ∧
    (monitorTick ctlWorld ["http://a\tb".toList] Monitor.start).requests = [] ∧
    (monitorTick ctlWorld ["http://a\tb".toList] Monitor.start).cancelCalls = 1 := by
  decide

/-- C6 (amended): one tick of the monitor runs no health check and issues no
HTTP request when the registry is empty; otherwise it runs exactly one health
check, on the first endpoint of the registry, which issues exactly one HTTP GET
addressed to that endpoint when `http.NewRequest` builds the request, and no
request when `http.NewRequest` fails.  No endpoint after the first is probed,
whatever the result of the first probe. -/
theorem monitorTick_requests (w : HttpWorld) (urls : List GoString) (st : Monitor) :
    (urls = [] →
      (monitorTick w urls st).probes = st.probes ∧
      (monitorTick w urls st).requests = st.requests) ∧
    (∀ u more, urls = u :: more →
      (monitorTick w urls st).probes = st.probes ++ [u] ∧
      (w.newRequest methodGet u = none →
        (monitorTick w urls st).requests = st.requests ++ [Request.mk methodGet u]) ∧
      (w.newRequest methodGet u ≠ none →
        (monitorTick w urls st).requests = st.requests)) := by
  cases urls with
  | nil => simp [monitorTick]
  | cons u more =>
    refine ⟨fun h => (by cases h), ?_⟩
    intro u2 more2 hu
    injection hu with h1 h2
    subst h1
    have hp : (monitorTick w (u :: more) st).probes = st.probes ++ [u] := by
      unfold monitorTick
      simp only
      split <;> rfl
    have hr : (monitorTick w (u :: more) st).requests
        = st.requests ++ (httpHealthCheck w u).requests := by
      unfold monitorTick
      simp only
      split <;> rfl
    refine ⟨hp, ?_, ?_⟩
    · intro hreq
      rw [hr]
      unfold httpHealthCheck
      simp only [hreq]
      split <;> rfl
    · intro hreq
      rw [hr]
      unfold httpHealthCheck
      cases h : w.newRequest methodGet u with
      | none => exact absurd h hreq
      | some e => simp

/-- Witness of `monitorTick_requests`: with two endpoints registered and a
server that answers, one GET goes to the first endpoint and none to the second. -/
theorem monitorTick_requests_witness :
    (monitorTick (answeringWorld 302) ["http://a".toList, "http://b".toList]
        Monitor.start).probes = ["http://a".toList] ∧
    (monitorTick (answeringWorld 302) ["http://a".toList, "http://b".toList]
        Monitor.start).requests = [Request.mk methodGet "http://a".toList] :=
  have h := (monitorTick_requests (answeringWorld 302)
    ["http://a".toList, "http://b".toList] Monitor.start).2 "http://a".toList
    ["http://b".toList] rfl
  ⟨h.1, h.2.1 rfl⟩

/-- A tick does not read the cancellation signal: with `ctx` already cancelled
it does what it does otherwise, and `ctx` stays cancelled. -/
theorem monitorTick_cancelled (w : HttpWorld) (urls : List GoString) (st : Monitor) :
    monitorTick w urls { st with cancelled := true }
      = { monitorTick w urls st with cancelled := true } := by
  cases urls with
  | nil => rfl
  | cons u more =>
    unfold monitorTick
    simp only
    split <;> rfl

/-! ## The endpoint registry -/

theorem registerLoop_eq (received : List GoString) : ∀ urls : List GoString,
    registerLoop urls received = urls ++ received := by
  induction received with
  | nil => intro urls; simp [registerLoop]
  | cons u more ih => intro urls; simp [registerLoop, appendURL, ih]

/-- C9: the registry is append-only and keeps the order.  The registering loop
leaves the registry it starts from in place and puts the received endpoints
after it, in the order received: the registry after the loop is `urls ++
received`.  So each update appends exactly the received endpoint at the end;
nothing is received, nothing changes; the registry before the loop, and the
registry after the first `j` receipts, is a prefix of the registry after the
first `k` receipts whenever `j ≤ k` (no entry is removed, moved or changed);
and after the endpoints `received` came out of the channel in that order (in
particular those `readURLs` sent), the registry that started empty holds exactly
`received`. -/
theorem registry_append_only (urls received : List GoString) :
    registerLoop urls received = urls ++ received ∧
    registerLoop urls [] = urls ∧
    (∀ u, registerLoop urls [u] = urls ++ [u]) ∧
    (∀ u, registerLoop urls (received ++ [u]) = registerLoop urls received ++ [u]) ∧
    urls <+: registerLoop urls received ∧
    (∀ j k, j ≤ k →
      registerLoop urls (received.take j) <+: registerLoop urls (received.take k)) ∧
    (∀ k (i : Nat) (h : i < (registerLoop urls (received.take k)).length),
      (registerLoop urls received)[i]? = some ((registerLoop urls (received.take k))[i])) ∧
    registerLoop [] received = received ∧
    (∀ input, registerLoop [] (readURLs input).sent = (readURLs input).sent) := by
  have hpre : ∀ j k, j ≤ k →
      registerLoop urls (received.take j) <+: registerLoop urls (received.take k) := by
    intro j k hjk
    rw [registerLoop_eq, registerLoop_eq]
    apply (List.prefix_append_right_inj urls).mpr
    exact List.take_prefix_take_left received hjk
  refine ⟨registerLoop_eq received urls, rfl, fun _ => rfl, ?_, ?_, hpre, ?_, ?_, ?_⟩
  · intro u
    simp [registerLoop_eq]
  · rw [registerLoop_eq]
    exact List.prefix_append urls received
  · intro k i h
    have hp : registerLoop urls (received.take k) <+: registerLoop urls received := by
      rw [registerLoop_eq, registerLoop_eq]
      apply (List.prefix_append_right_inj urls).mpr
      exact List.take_prefix k received
    obtain ⟨t, ht⟩ := hp
    rw [← ht, List.getElem?_append_left h, List.getElem?_eq_getElem h]
  · simp [registerLoop_eq]
  · intro input
    simp [registerLoop_eq]

end KPortForward
